import Mathlib

/-!
Verification of the sequential multi-stage task pipeline
(`src/orchestrators/sequential_orchestrator.py`), its evaluation
middleware (`src/middleware/evaluation_middleware.py`), the middleware
hook infrastructure (`src/middleware/base_middleware.py`) and the
orchestration configuration (`src/config/orchestration_config.py`).

Modelling conventions:
- Python strings are modelled as `List Char`.
- Python floats (scores, weights, timeouts, budgets) are modelled as `ℚ`
  (exact real arithmetic; the specification states its numeric facts in
  exact arithmetic).
- Fallible Python code is modelled with `Except`/`Option`.
- Real-time readings (`time.time()`) and the outputs of the external LLM
  executor are inputs of the model (oracle values), since they are
  external to the verified code.
-/

namespace AnomalyHunter

/-! ### Basic Python string helpers -/

/-- The backtick character (written via its code point). -/
def btick : Char := Char.ofNat 96

/-- The opening curly brace character. -/
def obrace : Char := Char.ofNat 123

/-- The closing curly brace character. -/
def cbrace : Char := Char.ofNat 125

/-- Whitespace characters, as in the Python regex class backslash-s and
`str.strip()` (ASCII part: space, tab, newline, carriage return,
vertical tab, form feed). -/
def isSpace (c : Char) : Bool :=
  c = ' ' || c = '\t' || c = '\n' || c = '\r' || c = Char.ofNat 11 || c = Char.ofNat 12

/-- Characters allowed in the optional language tag of a fenced code
block, from the regex in `FormatConverter.extract_code`:
the class of letters, digits, underscore, plus, minus and hash. -/
def isLangChar (c : Char) : Bool :=
  (97 ≤ c.toNat && c.toNat ≤ 122) || (65 ≤ c.toNat && c.toNat ≤ 90) ||
  (48 ≤ c.toNat && c.toNat ≤ 57) || c = '_' || c = '+' || c = '-' || c = '#'

/-- Python `hay.startswith(needle)` on character lists
(first argument is the needle). -/
def startsWithL : List Char → List Char → Bool
  | [], _ => true
  | _ :: _, [] => false
  | a :: as, b :: bs => a = b && startsWithL as bs

/-- Python `needle in hay` (substring test) on character lists. -/
def infixOfL (needle : List Char) : List Char → Bool
  | [] => startsWithL needle []
  | c :: rest => startsWithL needle (c :: rest) || infixOfL needle rest

/-- Python `s.lower()` on character lists. -/
def toLowerL (s : List Char) : List Char := s.map Char.toLower

/-- Python `s.strip()` on character lists: drop leading and trailing
whitespace. -/
def pyStrip (s : List Char) : List Char :=
  (((s.dropWhile isSpace).reverse).dropWhile isSpace).reverse

/-! ### `FormatConverter.extract_code`

The source scans the text with the regex
three backticks, an optional language word, optional whitespace, then a
lazily matched body up to the next three backticks, collecting all
captured bodies (`re.findall`).  Since neither the language-word class
nor whitespace contains a backtick, each match captures the text between
the end of the opener (after the greedy language word and whitespace)
and the first following fence, and scanning resumes after that closing
fence; if an opener has no closing fence, no further match exists.
The recursion is driven by an explicit fuel argument (one unit per
match); each match consumes at least six characters, so fuel
`length + 1` never runs out before scanning is complete. -/

/-- The three-backtick fence. -/
def fence : List Char := [btick, btick, btick]

/-- Does the list start with a three-backtick fence? -/
def startsFence : List Char → Bool
  | a :: b :: c :: _ => a = btick && b = btick && c = btick
  | _ => false

/-- Split at the first fence occurrence: returns the part strictly
before the fence and the part strictly after it, or `none` when the
list contains no fence. -/
def splitFence : List Char → Option (List Char × List Char)
  | [] => none
  | c :: cs =>
    if startsFence (c :: cs) then
      some ([], cs.drop 2)
    else
      match splitFence cs with
      | some (pre, post) => some (c :: pre, post)
      | none => none

/-- One regex match step per fuel unit: find an opening fence, drop the
greedy language word and whitespace, capture up to the closing fence,
resume after it.  Mirrors `re.findall` in `extract_code`. -/
def blocksAuxF : Nat → List Char → List (List Char)
  | 0, _ => []
  | fuel + 1, s =>
    match splitFence s with
    | none => []
    | some (_, afterOpen) =>
      match splitFence ((afterOpen.dropWhile isLangChar).dropWhile isSpace) with
      | none => []
      | some (content, rest) => content :: blocksAuxF fuel rest

/-- All fenced code block bodies of `s`, in order of occurrence. -/
def findBlocks (s : List Char) : List (List Char) := blocksAuxF (s.length + 1) s

/-- First longest element of `b :: bs` (Python stable
`sorted(key=len, reverse=True)` then index 0). -/
def pickLargest (b : List Char) : List (List Char) → List Char
  | [] => b
  | x :: xs => if x.length > b.length then pickLargest x xs else pickLargest b xs

/-- The code-likeness token test of `extract_code`:
`any(tok in text for tok in ("def ", "class ", "import ", "from ", "function", "const "))`. -/
def hasCodeTok (text : List Char) : Bool :=
  infixOfL ("def ".data) text || infixOfL ("class ".data) text ||
  infixOfL ("import ".data) text || infixOfL ("from ".data) text ||
  infixOfL ("function".data) text || infixOfL ("const ".data) text

/-- `FormatConverter.extract_code`: empty text is returned as is; if
fenced blocks exist, return the largest one (ties to the first),
stripped; otherwise return the text unchanged (both the code-like and
the plain branch of the source return `text`). -/
def extract_code (text : List Char) : List Char :=
  if text = [] then text
  else
    match findBlocks text with
    | [] => if hasCodeTok text then text else text
    | b :: bs => pyStrip (pickLargest b bs)

/-! ### Lemmas about `splitFence` and fence-freeness -/

/-- A character list that contains no three-backtick fence. -/
def FenceFree (s : List Char) : Prop := ∀ l r : List Char, s ≠ l ++ fence ++ r

theorem startsFence_iff (s : List Char) :
    startsFence s = true ↔ ∃ rest, s = btick :: btick :: btick :: rest := by
  cases s with
  | nil => simp [startsFence]
  | cons a t =>
    cases t with
    | nil => simp [startsFence]
    | cons b u =>
      cases u with
      | nil => simp [startsFence]
      | cons c v =>
        constructor
        · intro h
          simp only [startsFence, Bool.and_eq_true, decide_eq_true_eq] at h
          obtain ⟨⟨h1, h2⟩, h3⟩ := h
          exact ⟨v, by rw [h1, h2, h3]⟩
        · rintro ⟨rest, h⟩
          injection h with h1 h
          injection h with h2 h
          injection h with h3 h
          simp [startsFence, h1, h2, h3]

theorem splitFence_some : ∀ s pre post : List Char,
    splitFence s = some (pre, post) → s = pre ++ fence ++ post := by
  intro s
  induction s with
  | nil => intro pre post h; simp [splitFence] at h
  | cons c cs ih =>
    intro pre post h
    rw [splitFence] at h
    by_cases hf : startsFence (c :: cs) = true
    · rw [if_pos hf] at h
      obtain ⟨rest, hs⟩ := (startsFence_iff _).1 hf
      injection hs with hc hcs
      subst hc
      rw [hcs] at h ⊢
      simp only [List.drop, Option.some.injEq, Prod.mk.injEq] at h
      obtain ⟨hpre, hpost⟩ := h
      subst hpre; subst hpost
      simp [fence]
    · rw [if_neg hf] at h
      cases h' : splitFence cs with
      | none => rw [h'] at h; exact absurd h (by simp)
      | some pr =>
        obtain ⟨p, q⟩ := pr
        rw [h'] at h
        simp only [Option.some.injEq, Prod.mk.injEq] at h
        obtain ⟨hpre, hpost⟩ := h
        subst hpost
        have := ih p q h'
        subst hpre
        simp [this]

theorem splitFence_pre_fenceFree : ∀ s pre post : List Char,
    splitFence s = some (pre, post) → FenceFree pre := by
  intro s
  induction s with
  | nil => intro pre post h; simp [splitFence] at h
  | cons c cs ih =>
    intro pre post h
    rw [splitFence] at h
    by_cases hf : startsFence (c :: cs) = true
    · rw [if_pos hf] at h
      simp only [Option.some.injEq, Prod.mk.injEq] at h
      obtain ⟨hpre, _⟩ := h
      subst hpre
      intro l r hlr
      have hlen : ([] : List Char).length = (l ++ fence ++ r).length :=
        congrArg List.length hlr
      simp [fence] at hlen
      omega
    · rw [if_neg hf] at h
      cases h' : splitFence cs with
      | none => rw [h'] at h; exact absurd h (by simp)
      | some pr =>
        obtain ⟨p, q⟩ := pr
        rw [h'] at h
        simp only [Option.some.injEq, Prod.mk.injEq] at h
        obtain ⟨hpre, _⟩ := h
        subst hpre
        intro l r hlr
        cases l with
        | nil =>
          have hlr' : c :: p = btick :: btick :: btick :: r := by
            rw [hlr]; simp [fence]
          injection hlr' with hc hp
          have hcs := splitFence_some cs p q h'
          have : startsFence (c :: cs) = true := by
            rw [startsFence_iff]
            refine ⟨r ++ fence ++ q, ?_⟩
            rw [hc, hcs, hp]
            simp
          exact hf this
        | cons a l' =>
          simp only [List.cons_append, List.cons.injEq] at hlr
          obtain ⟨_, hp⟩ := hlr
          exact ih p q h' l' r hp

theorem splitFence_append_ne_none : ∀ l r : List Char,
    splitFence (l ++ fence ++ r) ≠ none := by
  intro l
  induction l with
  | nil =>
    intro r
    show splitFence (btick :: btick :: btick :: r) ≠ none
    rw [splitFence]
    have : startsFence (btick :: btick :: btick :: r) = true := by
      rw [startsFence_iff]; exact ⟨r, rfl⟩
    rw [if_pos this]
    simp
  | cons a l' ih =>
    intro r
    show splitFence (a :: (l' ++ fence ++ r)) ≠ none
    rw [splitFence]
    by_cases hsf : startsFence (a :: (l' ++ fence ++ r)) = true
    · rw [if_pos hsf]; simp
    · rw [if_neg hsf]
      cases h'' : splitFence (l' ++ fence ++ r) with
      | none => exact absurd h'' (ih r)
      | some pr => obtain ⟨p, q⟩ := pr; simp

theorem fenceFree_of_splitFence_none {s : List Char}
    (h : splitFence s = none) : FenceFree s := by
  intro l r hlr
  exact splitFence_append_ne_none l r (hlr ▸ h)

theorem fenceFree_of_decomp {s t l0 r0 : List Char}
    (hdec : s = l0 ++ t ++ r0) (hs : FenceFree s) : FenceFree t := by
  intro l r hlr
  apply hs (l0 ++ l) (r ++ r0)
  subst hdec; subst hlr
  simp

theorem exists_pyStrip_decomp (s : List Char) :
    ∃ l r : List Char, s = l ++ pyStrip s ++ r := by
  have h1 : s = s.takeWhile isSpace ++ s.dropWhile isSpace :=
    (List.takeWhile_append_dropWhile _ _).symm
  have h2 : (s.dropWhile isSpace).reverse =
      (s.dropWhile isSpace).reverse.takeWhile isSpace ++
        (s.dropWhile isSpace).reverse.dropWhile isSpace :=
    (List.takeWhile_append_dropWhile _ _).symm
  have h3 := congrArg List.reverse h2
  rw [List.reverse_reverse, List.reverse_append] at h3
  refine ⟨s.takeWhile isSpace, ((s.dropWhile isSpace).reverse.takeWhile isSpace).reverse, ?_⟩
  rw [pyStrip, List.append_assoc, ← h3]
  exact h1

theorem fenceFree_mem_blocksAuxF : ∀ (n : Nat) (s b : List Char),
    b ∈ blocksAuxF n s → FenceFree b := by
  intro n
  induction n with
  | zero => intro s b h; simp [blocksAuxF] at h
  | succ n ih =>
    intro s b h
    rw [blocksAuxF] at h
    split at h
    · simp at h
    · split at h
      · simp at h
      · rename_i heq2
        simp only [List.mem_cons] at h
        rcases h with h | h
        · subst h; exact splitFence_pre_fenceFree _ _ _ heq2
        · exact ih _ b h

theorem pickLargest_mem : ∀ (bs : List (List Char)) (b : List Char),
    pickLargest b bs ∈ b :: bs := by
  intro bs
  induction bs with
  | nil => intro b; simp [pickLargest]
  | cons x xs ih =>
    intro b
    rw [pickLargest]
    by_cases hc : x.length > b.length
    · rw [if_pos hc]
      have := ih x
      simp only [List.mem_cons] at this ⊢
      tauto
    · rw [if_neg hc]
      have := ih b
      simp only [List.mem_cons] at this ⊢
      tauto

theorem extract_code_of_no_blocks {t : List Char}
    (h : findBlocks t = []) : extract_code t = t := by
  rw [extract_code]
  by_cases ht : t = []
  · rw [if_pos ht]
  · rw [if_neg ht, h]
    exact ite_self t

theorem extract_code_fenceFree_fix {t : List Char}
    (h : FenceFree t) : extract_code t = t := by
  apply extract_code_of_no_blocks
  rw [findBlocks, blocksAuxF]
  cases h1 : splitFence t with
  | none => rfl
  | some pr =>
    obtain ⟨pre, post⟩ := pr
    exact absurd (splitFence_some t pre post h1) (h pre post)

/-- Claim C7: the code-extraction operation of `FormatConverter` is
idempotent: for every text input, applying `extract_code` twice yields
the same result as applying it once.  When the input has no fenced
block it is returned unchanged; when it has one, the returned block
body never contains a fence, so a second application returns it
unchanged. -/
theorem claim_C7 (x : List Char) :
    extract_code (extract_code x) = extract_code x := by
  by_cases hx : x = []
  · subst hx; rfl
  · cases hb : findBlocks x with
    | nil =>
      have hfix : extract_code x = x := extract_code_of_no_blocks hb
      rw [hfix]
      exact hfix
    | cons b bs =>
      have hval : extract_code x = pyStrip (pickLargest b bs) := by
        rw [extract_code, if_neg hx, hb]
      have hmem : pickLargest b bs ∈ b :: bs := pickLargest_mem bs b
      have hff : FenceFree (pickLargest b bs) := by
        rw [← hb] at hmem
        exact fenceFree_mem_blocksAuxF _ _ _ hmem
      obtain ⟨l0, r0, hdec⟩ := exists_pyStrip_decomp (pickLargest b bs)
      have hffs : FenceFree (pyStrip (pickLargest b bs)) :=
        fenceFree_of_decomp hdec hff
      rw [hval]
      exact extract_code_fenceFree_fix hffs

/-! ### `EvaluationMiddleware._run_evaluations`

An evaluator slot models one of the four evaluator attributes of
`EvaluationMiddleware`: `none` is a disabled evaluator
(`SecurityEvaluator() if enable_security else None` in `__init__`);
`some (.ok q)` is an enabled evaluator whose `evaluate` call returned
overall score `q`; `some (.error ())` is an enabled evaluator whose
`evaluate` call raised an exception.  The evaluator outcomes are model
inputs because the evaluators call external tools and LLMs. -/

/-- One evaluator attribute of the middleware together with the outcome
of its `evaluate` call. -/
abbrev EvalSlot : Type := Option (Except Unit ℚ)

/-- Score left in the local variable after one evaluator block of
`_run_evaluations`: it stays `0.0` for a disabled evaluator, takes the
returned overall score on success, and `0.5` (neutral) on an exception. -/
def slotScore : EvalSlot → ℚ
  | none => 0
  | some (.ok q) => q
  | some (.error _) => 1/2

/-- Contribution of one evaluator block to `evaluators_run`. -/
def slotRan : EvalSlot → Nat
  | none => 0
  | some (.ok _) => 1
  | some (.error _) => 0

/-- Contribution of one evaluator block to `evaluators_failed`. -/
def slotFailed : EvalSlot → Nat
  | none => 0
  | some (.ok _) => 0
  | some (.error _) => 1

/-- Scoring weight for the security dimension (`0.30`). -/
def w_security : ℚ := 30/100

/-- Scoring weight for the static-analysis dimension (`0.30`). -/
def w_static : ℚ := 30/100

/-- Scoring weight for the complexity dimension (`0.20`). -/
def w_complexity : ℚ := 20/100

/-- Scoring weight for the LLM-judge dimension (`0.20`). -/
def w_llm : ℚ := 20/100

/-- Python `round(q, 3)`, used on every stored score.  Modelled as
floor-based rounding of `q * 1000`; every score arising in the claims is
an exact multiple of `1/1000`, where the two conventions agree. -/
def round3 (q : ℚ) : ℚ := ((⌊q * 1000 + 1/2⌋ : ℤ) : ℚ) / 1000

/-- The `AggregatedEvaluationResult` dataclass (detail fields and the
strength/weakness/recommendation lists, which no claim mentions, are
omitted). -/
structure AggregatedEvaluationResult where
  overall_score : ℚ
  passed : Bool
  security_score : ℚ
  static_analysis_score : ℚ
  complexity_score : ℚ
  llm_judge_score : ℚ
  evaluators_run : Nat
  evaluators_failed : Nat
deriving DecidableEq

/-- `EvaluationMiddleware._run_evaluations`: run the four evaluator
blocks, compute the weighted overall score, the AND-gated pass flag and
the run/failure counters.  The function is total: no evaluator outcome
makes it fail (failure isolation). -/
def run_evaluations (pass_threshold : ℚ)
    (sec sta comp llm : EvalSlot) : AggregatedEvaluationResult :=
  let security_score := slotScore sec
  let static_score := slotScore sta
  let complexity_score := slotScore comp
  let llm_score := slotScore llm
  let overall := security_score * w_security + static_score * w_static +
    complexity_score * w_complexity + llm_score * w_llm
  let passed := decide (overall ≥ pass_threshold) && decide (security_score ≥ 6/10) &&
    decide (static_score ≥ 6/10) && decide (complexity_score ≥ 6/10) &&
    decide (llm_score ≥ 6/10)
  { overall_score := round3 overall
    passed := passed
    security_score := round3 security_score
    static_analysis_score := round3 static_score
    complexity_score := round3 complexity_score
    llm_judge_score := round3 llm_score
    evaluators_run := slotRan sec + slotRan sta + slotRan comp + slotRan llm
    evaluators_failed := slotFailed sec + slotFailed sta + slotFailed comp + slotFailed llm }

/-- The interface contract of an evaluator (spec section 6): when its
`evaluate` call succeeds, the returned overall score lies in `[0, 1]`. -/
def okBound (s : EvalSlot) : Prop :=
  ∀ q : ℚ, s = some (Except.ok q) → 0 ≤ q ∧ q ≤ 1

theorem slotScore_mem {s : EvalSlot} (h : okBound s) :
    0 ≤ slotScore s ∧ slotScore s ≤ 1 := by
  match s with
  | none => constructor <;> norm_num [slotScore]
  | some (.ok q) => simpa [slotScore] using h q rfl
  | some (.error e) => constructor <;> norm_num [slotScore]

theorem round3_le_of_le {q c : ℚ} (h : q ≤ c) (hc : round3 c = c) :
    round3 q ≤ c := by
  have hf : (⌊q * 1000 + 1/2⌋ : ℤ) ≤ ⌊c * 1000 + 1/2⌋ :=
    Int.floor_le_floor (by linarith)
  calc round3 q = ((⌊q * 1000 + 1/2⌋ : ℤ) : ℚ) / 1000 := rfl
    _ ≤ ((⌊c * 1000 + 1/2⌋ : ℤ) : ℚ) / 1000 :=
        (div_le_div_iff_of_pos_right (by norm_num : (0:ℚ) < 1000)).2
          (by exact_mod_cast hf)
    _ = c := hc

/-- Claim C1: the pass flag of `_run_evaluations` is true exactly when
the weighted overall score reaches the pass threshold AND each of the
four individual scores is at least `0.6`; with the default threshold
`0.7` and subscores `1.0, 1.0, 1.0, 0.0`, the overall score is `0.8`
yet the run does not pass. -/
theorem claim_C1 :
    (∀ (thr : ℚ) (s1 s2 s3 s4 : EvalSlot),
      ((run_evaluations thr s1 s2 s3 s4).passed = true ↔
        (slotScore s1 * w_security + slotScore s2 * w_static +
            slotScore s3 * w_complexity + slotScore s4 * w_llm ≥ thr ∧
          slotScore s1 ≥ 6/10 ∧ slotScore s2 ≥ 6/10 ∧
          slotScore s3 ≥ 6/10 ∧ slotScore s4 ≥ 6/10))) ∧
    ((run_evaluations (7/10) (some (.ok 1)) (some (.ok 1)) (some (.ok 1))
        (some (.ok 0))).overall_score = 8/10 ∧
      (run_evaluations (7/10) (some (.ok 1)) (some (.ok 1)) (some (.ok 1))
        (some (.ok 0))).passed = false) := by
  constructor
  · intro thr s1 s2 s3 s4
    simp [run_evaluations, slotScore, Bool.and_eq_true, decide_eq_true_eq, and_assoc]
  · constructor
    · norm_num [run_evaluations, slotScore, round3, w_security, w_static,
        w_complexity, w_llm]
    · norm_num [run_evaluations, slotScore, w_security, w_static,
        w_complexity, w_llm]

/-- Claim C4: when exactly one of the four enabled evaluators raises an
exception, its score is replaced by the neutral `0.5`, the weighted
overall score is still computed over all four dimensions,
`evaluators_failed` is `1` and `evaluators_run` is `3`.  The aggregation
itself is a total Lean function (`run_evaluations`), so it cannot fail:
a single evaluator failure never aborts the whole aggregation.  The four
conjuncts cover the failure happening in each of the four dimensions. -/
theorem claim_C4 (thr q1 q2 q3 : ℚ) :
    ((run_evaluations thr (some (.error ())) (some (.ok q1)) (some (.ok q2))
        (some (.ok q3))).security_score = 1/2 ∧
      (run_evaluations thr (some (.error ())) (some (.ok q1)) (some (.ok q2))
        (some (.ok q3))).overall_score =
        round3 (1/2 * w_security + q1 * w_static + q2 * w_complexity + q3 * w_llm) ∧
      (run_evaluations thr (some (.error ())) (some (.ok q1)) (some (.ok q2))
        (some (.ok q3))).evaluators_failed = 1 ∧
      (run_evaluations thr (some (.error ())) (some (.ok q1)) (some (.ok q2))
        (some (.ok q3))).evaluators_run = 3) ∧
    ((run_evaluations thr (some (.ok q1)) (some (.error ())) (some (.ok q2))
        (some (.ok q3))).static_analysis_score = 1/2 ∧
      (run_evaluations thr (some (.ok q1)) (some (.error ())) (some (.ok q2))
        (some (.ok q3))).overall_score =
        round3 (q1 * w_security + 1/2 * w_static + q2 * w_complexity + q3 * w_llm) ∧
      (run_evaluations thr (some (.ok q1)) (some (.error ())) (some (.ok q2))
        (some (.ok q3))).evaluators_failed = 1 ∧
      (run_evaluations thr (some (.ok q1)) (some (.error ())) (some (.ok q2))
        (some (.ok q3))).evaluators_run = 3) ∧
    ((run_evaluations thr (some (.ok q1)) (some (.ok q2)) (some (.error ()))
        (some (.ok q3))).complexity_score = 1/2 ∧
      (run_evaluations thr (some (.ok q1)) (some (.ok q2)) (some (.error ()))
        (some (.ok q3))).overall_score =
        round3 (q1 * w_security + q2 * w_static + 1/2 * w_complexity + q3 * w_llm) ∧
      (run_evaluations thr (some (.ok q1)) (some (.ok q2)) (some (.error ()))
        (some (.ok q3))).evaluators_failed = 1 ∧
      (run_evaluations thr (some (.ok q1)) (some (.ok q2)) (some (.error ()))
        (some (.ok q3))).evaluators_run = 3) ∧
    ((run_evaluations thr (some (.ok q1)) (some (.ok q2)) (some (.ok q3))
        (some (.error ()))).llm_judge_score = 1/2 ∧
      (run_evaluations thr (some (.ok q1)) (some (.ok q2)) (some (.ok q3))
        (some (.error ()))).overall_score =
        round3 (q1 * w_security + q2 * w_static + q3 * w_complexity + 1/2 * w_llm) ∧
      (run_evaluations thr (some (.ok q1)) (some (.ok q2)) (some (.ok q3))
        (some (.error ()))).evaluators_failed = 1 ∧
      (run_evaluations thr (some (.ok q1)) (some (.ok q2)) (some (.ok q3))
        (some (.error ()))).evaluators_run = 3) := by
  refine ⟨⟨?_, rfl, rfl, rfl⟩, ⟨?_, rfl, rfl, rfl⟩, ⟨?_, rfl, rfl, rfl⟩,
    ⟨?_, rfl, rfl, rfl⟩⟩ <;>
    norm_num [run_evaluations, slotScore, round3]

/-- Claim C10: when one of the four evaluators is disabled at
construction, its score stays `0.0`, which participates both in the
weighted sum and in the per-dimension gate; hence the aggregate can
never pass, and the overall score is at most `1` minus the disabled
dimension weight (provided the enabled evaluators respect their
`[0, 1]` score contract).  The four conjuncts cover disabling each of
the four dimensions. -/
theorem claim_C10 (thr : ℚ) (sa sb sc : EvalSlot)
    (ha : okBound sa) (hb : okBound sb) (hc : okBound sc) :
    ((run_evaluations thr none sa sb sc).passed = false ∧
      (run_evaluations thr none sa sb sc).security_score = 0 ∧
      (run_evaluations thr none sa sb sc).overall_score ≤ 1 - w_security) ∧
    ((run_evaluations thr sa none sb sc).passed = false ∧
      (run_evaluations thr sa none sb sc).static_analysis_score = 0 ∧
      (run_evaluations thr sa none sb sc).overall_score ≤ 1 - w_static) ∧
    ((run_evaluations thr sa sb none sc).passed = false ∧
      (run_evaluations thr sa sb none sc).complexity_score = 0 ∧
      (run_evaluations thr sa sb none sc).overall_score ≤ 1 - w_complexity) ∧
    ((run_evaluations thr sa sb sc none).passed = false ∧
      (run_evaluations thr sa sb sc none).llm_judge_score = 0 ∧
      (run_evaluations thr sa sb sc none).overall_score ≤ 1 - w_llm) := by
  obtain ⟨ha0, ha1⟩ := slotScore_mem ha
  obtain ⟨hb0, hb1⟩ := slotScore_mem hb
  obtain ⟨hc0, hc1⟩ := slotScore_mem hc
  have hz : decide ((0:ℚ) ≥ 6/10) = false := by norm_num
  refine ⟨⟨?_, ?_, ?_⟩, ⟨?_, ?_, ?_⟩, ⟨?_, ?_, ?_⟩, ⟨?_, ?_, ?_⟩⟩
  · simp [run_evaluations, slotScore, hz]
  · norm_num [run_evaluations, slotScore, round3]
  · refine round3_le_of_le ?_ (by norm_num [round3, w_security])
    rw [show slotScore none = 0 from rfl, w_security, w_static, w_complexity, w_llm]
    linarith
  · simp [run_evaluations, slotScore, hz]
  · norm_num [run_evaluations, slotScore, round3]
  · refine round3_le_of_le ?_ (by norm_num [round3, w_static])
    rw [show slotScore none = 0 from rfl, w_security, w_static, w_complexity, w_llm]
    linarith
  · simp [run_evaluations, slotScore, hz]
  · norm_num [run_evaluations, slotScore, round3]
  · refine round3_le_of_le ?_ (by norm_num [round3, w_complexity])
    rw [show slotScore none = 0 from rfl, w_security, w_static, w_complexity, w_llm]
    linarith
  · simp [run_evaluations, slotScore, hz]
  · norm_num [run_evaluations, slotScore, round3]
  · refine round3_le_of_le ?_ (by norm_num [round3, w_llm])
    rw [show slotScore none = 0 from rfl, w_security, w_static, w_complexity, w_llm]
    linarith

/-- Witness for claim C10: instantiated with threshold `0.7` and the
three enabled evaluators all returning score `1`. -/
theorem claim_C10_witness :
    okBound (some (Except.ok 1)) ∧
    (run_evaluations (7/10) none (some (Except.ok 1)) (some (Except.ok 1))
      (some (Except.ok 1))).passed = false ∧
    (run_evaluations (7/10) none (some (Except.ok 1)) (some (Except.ok 1))
      (some (Except.ok 1))).overall_score ≤ 1 - w_security := by
  have hob : okBound (some (Except.ok 1)) := by
    intro q h
    simp only [Option.some.injEq, Except.ok.injEq] at h
    subst h
    norm_num
  have hres := claim_C10 (7/10) (some (Except.ok 1)) (some (Except.ok 1))
    (some (Except.ok 1)) hob hob hob
  exact ⟨hob, hres.1.1, hres.1.2.2⟩

/-! ### Budget tracking (`execute_workflow.budget_left` and
`OrchestrationConfig.get_stage_multiplier`) -/

/-- The `budget_left` closure of `execute_workflow`:
`max(0.1, TOTAL_BUDGET_S - (time.time() - start_time))`, with the
elapsed time since the start of the run as an explicit argument. -/
def budget_left (total_budget elapsed : ℚ) : ℚ :=
  max (1/10) (total_budget - elapsed)

/-- The per-stage timeout computed inline in `execute_workflow`:
`min(STAGE_TIMEOUT_S * multiplier, budget_left())`, evaluated at one
point in time (`elapsed` is shared with `budget_left`). -/
def stage_timeout (default_stage_timeout multiplier total_budget elapsed : ℚ) : ℚ :=
  min (default_stage_timeout * multiplier) (budget_left total_budget elapsed)

/-- `OrchestrationConfig.get_stage_multiplier`: look the stage name up
in the configured multiplier table, defaulting to `1.0` when the stage
name is not configured. -/
def get_stage_multiplier (table : List (List Char × ℚ)) (stage_name : List Char) : ℚ :=
  match table.lookup stage_name with
  | some m => m
  | none => 1

/-- Counterexample to claim C5: the claim quantifies over every
configuration, but with `default_stage_timeout = 0.05` (and the default
multiplier `1.0`, total budget `900`, at elapsed time `0`) the computed
stage timeout is `0.05`, strictly below the `0.1` floor. -/
theorem claim_C5_counterexample :
    stage_timeout (5/100) (get_stage_multiplier [] ("architecture".data)) 900 0 = 5/100 ∧
    ¬ (stage_timeout (5/100) (get_stage_multiplier [] ("architecture".data)) 900 0 ≥ 1/10) := by
  constructor
  · norm_num [stage_timeout, budget_left, get_stage_multiplier]
  · norm_num [stage_timeout, budget_left, get_stage_multiplier]

/-- Claim C5, amended: for every configuration and stage, the computed
stage timeout is at most `budget_left` evaluated at call time; and it is
at least the `0.1` floor provided the configured product
`default_stage_timeout * multiplier` is itself at least the floor (the
floor clause does not hold for every configuration: see the
counterexample). -/
theorem claim_C5 (default_stage_timeout total_budget elapsed : ℚ)
    (table : List (List Char × ℚ)) (stage_name : List Char) :
    stage_timeout default_stage_timeout (get_stage_multiplier table stage_name)
      total_budget elapsed ≤ budget_left total_budget elapsed ∧
    (default_stage_timeout * get_stage_multiplier table stage_name ≥ 1/10 →
      stage_timeout default_stage_timeout (get_stage_multiplier table stage_name)
        total_budget elapsed ≥ 1/10) := by
  constructor
  · exact min_le_right _ _
  · intro h
    rw [stage_timeout]
    apply le_min h
    exact le_max_left _ _

/-- Witness for claim C5: the default configuration
(`default_stage_timeout = 180`, unconfigured multiplier `1.0`, total
budget `900`, elapsed `0`) satisfies the floor hypothesis. -/
theorem claim_C5_witness :
    stage_timeout 180 (get_stage_multiplier [] ("review".data)) 900 0 ≤
      budget_left 900 0 ∧
    ((180 : ℚ) * get_stage_multiplier [] ("review".data) ≥ 1/10 ∧
      stage_timeout 180 (get_stage_multiplier [] ("review".data)) 900 0 ≥ 1/10) := by
  refine ⟨(claim_C5 180 900 0 [] ("review".data)).1, ?_, ?_⟩
  · norm_num [get_stage_multiplier]
  · exact (claim_C5 180 900 0 [] ("review".data)).2
      (by norm_num [get_stage_multiplier])

/-! ### `SequentialCollaborativeOrchestrator.execute_workflow`

The LLM outputs of the five stage kinds, the `budget_left()` readings at
the loop and documentation decision points, and the JSON-parsing
function used by `_parse_review_result` (Python `json.loads` plus the
`issues_found` lookup, library code external to the repository) are
model inputs.  A stage call returning `.error` models an exception that
escapes the protective per-stage wrapper (for example an
`asyncio.CancelledError`, which `except Exception` does not catch);
in-stage failures are already folded into the returned output string by
`_call_llm` (the `[ERROR]` sentinel).  The `weave`/middleware
side-effects and the fields of `StageResult`/`WorkflowResult` carrying
wall-clock readings, model ids and run ids are not modelled; no claim
mentions them. -/

/-- The modelled fields of the `StageResult` dataclass. -/
structure StageResult where
  stage : List Char
  output : List Char
  success : Bool
deriving DecidableEq

/-- The modelled fields of the `WorkflowResult` dataclass. -/
structure WorkflowResult where
  original_request : List Char
  workflow_name : List Char
  stages : List StageResult
  final_output : List Char
  iterations : Nat
  success : Bool
deriving DecidableEq

/-- Keyword list of the architecture-stage quality check. -/
def archKeywords : List (List Char) :=
  [("architecture").data, ("design").data, ("component").data,
   ("system").data, ("structure").data]

/-- `_architect_stage` on the raw LLM output: success requires no
`[ERROR]` sentinel, more than 100 stripped characters, and an
architecture keyword in the lowercased output. -/
def _architect_stage (out : List Char) : StageResult :=
  { stage := ("architecture").data
    output := out
    success := !startsWithL (("[ERROR]").data) out &&
      decide ((pyStrip out).length > 100) &&
      archKeywords.any (fun k => infixOfL k (toLowerL out)) }

/-- `_coder_stage` on the raw LLM output: the stored output is the
extracted code; success requires no `[ERROR]` sentinel on the raw
output. -/
def _coder_stage (out : List Char) : StageResult :=
  { stage := ("implementation").data
    output := extract_code out
    success := !startsWithL (("[ERROR]").data) out }

/-- `_reviewer_stage` on the raw LLM output. -/
def _reviewer_stage (out : List Char) : StageResult :=
  { stage := ("review").data
    output := out
    success := !startsWithL (("[ERROR]").data) out }

/-- `_coder_refine_stage` on the raw LLM output: stores the extracted
code, like the coder stage. -/
def _coder_refine_stage (out : List Char) : StageResult :=
  { stage := ("refinement").data
    output := extract_code out
    success := !startsWithL (("[ERROR]").data) out }

/-- `_documenter_stage` on the raw LLM output. -/
def _documenter_stage (out : List Char) : StageResult :=
  { stage := ("documentation").data
    output := out
    success := !startsWithL (("[ERROR]").data) out }

/-- The text matched by the regex open-brace dot-star close-brace with
DOTALL in `_parse_review_result`: from the first opening brace through
the last closing brace after it, or `none` when no such span exists. -/
def braceSpan (s : List Char) : Option (List Char) :=
  match s.dropWhile (fun c => !(c = obrace)) with
  | [] => none
  | _ :: tail =>
    match tail.reverse.dropWhile (fun c => !(c = cbrace)) with
    | [] => none
    | tdrop => some (obrace :: tdrop.reverse)

/-- The keyword-heuristic fallback of `_parse_review_result`. -/
def reviewKeywordFallback (s : List Char) : Bool :=
  infixOfL (("critical").data) (toLowerL s) ||
  infixOfL (("bug").data) (toLowerL s) ||
  infixOfL (("issue").data) (toLowerL s)

/-- `_parse_review_result`: try to JSON-parse the brace span and read
its `issues_found` flag (`jsonParse`, a model input); on a missing span
or a parse failure fall back to the keyword heuristic. -/
def _parse_review_result (jsonParse : List Char → Option Bool) (s : List Char) : Bool :=
  match braceSpan s with
  | some cand =>
    match jsonParse cand with
    | some b => b
    | none => reviewKeywordFallback s
  | none => reviewKeywordFallback s

/-- Oracle inputs of one workflow run: raw LLM outputs per stage call
(`.error` = exception escaping the stage wrapper) and the
`budget_left()` readings at the two kinds of decision points. -/
structure WorkflowEnv where
  arch : Except Unit (List Char)
  impl : Except Unit (List Char)
  review : Nat → Except Unit (List Char)
  refine : Nat → Except Unit (List Char)
  doc : Except Unit (List Char)
  loopBudget : Nat → ℚ
  docBudget : ℚ

/-- Mutable state of the review/refine loop: the accumulated stage
list, the iteration counter, and the `implementation` and `review`
context entries. -/
structure LoopAcc where
  stages : List StageResult
  iterations : Nat
  implementation : List Char
  lastReview : List Char

/-- The review/refine `while` loop of `execute_workflow`.  The guard is
the source guard (`issues_found and iterations < max_iterations and
budget_left() > 10`); the fuel argument is called with `maxIter`, so it
runs out only when the `iterations < max_iterations` conjunct is false
anyway (the loop increments `iterations` by one per pass).  An `.error`
from a stage call aborts with the stages accumulated so far. -/
def refineLoopF (jsonParse : List Char → Option Bool) (env : WorkflowEnv)
    (maxIter : Nat) : Nat → LoopAcc → Except (List StageResult) LoopAcc
  | 0, acc => .ok acc
  | fuel + 1, acc =>
    if _parse_review_result jsonParse acc.lastReview &&
        decide (acc.iterations < maxIter) &&
        decide (env.loopBudget acc.iterations > 10) then
      match env.refine (acc.iterations + 1) with
      | .error _ => .error acc.stages
      | .ok refOut =>
        match env.review (acc.iterations + 1) with
        | .error _ => .error (acc.stages ++ [_coder_refine_stage refOut])
        | .ok revOut =>
          refineLoopF jsonParse env maxIter fuel
            { stages := acc.stages ++ [_coder_refine_stage refOut, _reviewer_stage revOut]
              iterations := acc.iterations + 1
              implementation := (_coder_refine_stage refOut).output
              lastReview := revOut }
    else .ok acc

/-- The body of the `try` block of `execute_workflow`: on success it
returns the stage list, the iteration count and the final
implementation; `.error` carries the stages accumulated when an
exception escaped a stage wrapper. -/
def workflowBody (jsonParse : List Char → Option Bool) (maxIter : Nat)
    (env : WorkflowEnv) :
    Except (List StageResult) (List StageResult × Nat × List Char) :=
  match env.arch with
  | .error _ => .error []
  | .ok archOut =>
    match env.impl with
    | .error _ => .error [_architect_stage archOut]
    | .ok implOut =>
      match env.review 0 with
      | .error _ => .error [_architect_stage archOut, _coder_stage implOut]
      | .ok revOut =>
        match refineLoopF jsonParse env maxIter maxIter
            { stages := [_architect_stage archOut, _coder_stage implOut,
                _reviewer_stage revOut]
              iterations := 0
              implementation := (_coder_stage implOut).output
              lastReview := revOut } with
        | .error st => .error st
        | .ok acc =>
          if env.docBudget > 10 then
            match env.doc with
            | .error _ => .error acc.stages
            | .ok docOut =>
              .ok (acc.stages ++ [_documenter_stage docOut], acc.iterations,
                acc.implementation)
          else .ok (acc.stages, acc.iterations, acc.implementation)

/-- `execute_workflow`: always returns a `WorkflowResult`.  On an
escaped exception the run is aborted with the stages completed so far,
an empty final output, a zeroed iteration count and `success = false`;
otherwise `success` is the source formula
`len(stages) > 0 and all(stage.success) and len(final_output.strip()) > 50`. -/
def execute_workflow (jsonParse : List Char → Option Bool) (maxIter : Nat)
    (task : List Char) (env : WorkflowEnv) : WorkflowResult :=
  match workflowBody jsonParse maxIter env with
  | .error st =>
    { original_request := task
      workflow_name := ("feature_development").data
      stages := st
      final_output := []
      iterations := 0
      success := false }
  | .ok (stages, iters, finalImpl) =>
    { original_request := task
      workflow_name := ("feature_development").data
      stages := stages
      final_output := finalImpl
      iterations := iters
      success := (decide (stages.length > 0) && stages.all (fun st => st.success)) &&
        decide ((pyStrip finalImpl).length > 50) }

/-- A workflow environment in which no stage call raises an escaping
exception (every external call returns a string). -/
structure PureEnv where
  arch : List Char
  impl : List Char
  review : Nat → List Char
  refine : Nat → List Char
  doc : List Char
  loopBudget : Nat → ℚ
  docBudget : ℚ

/-- Interpret a `PureEnv` as a `WorkflowEnv`. -/
def PureEnv.toEnv (p : PureEnv) : WorkflowEnv :=
  { arch := .ok p.arch
    impl := .ok p.impl
    review := fun k => .ok (p.review k)
    refine := fun k => .ok (p.refine k)
    doc := .ok p.doc
    loopBudget := p.loopBudget
    docBudget := p.docBudget }

/-- Number of stage results with a given stage name. -/
def cntStage (stages : List StageResult) (name : List Char) : Nat :=
  (stages.filter (fun st => decide (st.stage = name))).length

theorem cntStage_append (l1 l2 : List StageResult) (name : List Char) :
    cntStage (l1 ++ l2) name = cntStage l1 name + cntStage l2 name := by
  simp [cntStage, List.filter_append]

theorem refineLoopF_toEnv_succ (jp : List Char → Option Bool) (p : PureEnv)
    (maxIter fuel : Nat) (acc : LoopAcc) :
    refineLoopF jp p.toEnv maxIter (fuel + 1) acc =
      (if _parse_review_result jp acc.lastReview &&
          decide (acc.iterations < maxIter) &&
          decide (p.loopBudget acc.iterations > 10) then
        refineLoopF jp p.toEnv maxIter fuel
          { stages := acc.stages ++
              [_coder_refine_stage (p.refine (acc.iterations + 1)),
               _reviewer_stage (p.review (acc.iterations + 1))]
            iterations := acc.iterations + 1
            implementation := (_coder_refine_stage (p.refine (acc.iterations + 1))).output
            lastReview := p.review (acc.iterations + 1) }
      else .ok acc) := rfl

theorem workflowBody_toEnv (jp : List Char → Option Bool) (maxIter : Nat)
    (p : PureEnv) :
    workflowBody jp maxIter p.toEnv =
      (match refineLoopF jp p.toEnv maxIter maxIter
          { stages := [_architect_stage p.arch, _coder_stage p.impl,
              _reviewer_stage (p.review 0)]
            iterations := 0
            implementation := (_coder_stage p.impl).output
            lastReview := p.review 0 } with
      | .error st => .error st
      | .ok acc =>
        if p.docBudget > 10 then
          .ok (acc.stages ++ [_documenter_stage p.doc], acc.iterations,
            acc.implementation)
        else .ok (acc.stages, acc.iterations, acc.implementation)) := rfl

theorem refineLoopF_pure (jp : List Char → Option Bool) (p : PureEnv)
    (maxIter : Nat) : ∀ (fuel : Nat) (acc : LoopAcc),
    ∃ acc', refineLoopF jp p.toEnv maxIter fuel acc = .ok acc' ∧
      ∃ ext, acc'.stages = acc.stages ++ ext := by
  intro fuel
  induction fuel with
  | zero => intro acc; exact ⟨acc, rfl, [], by simp⟩
  | succ n ih =>
    intro acc
    rw [refineLoopF_toEnv_succ]
    split
    · obtain ⟨acc', h1, ext, h2⟩ := ih _
      refine ⟨acc', h1,
        [_coder_refine_stage (p.refine (acc.iterations + 1)),
         _reviewer_stage (p.review (acc.iterations + 1))] ++ ext, ?_⟩
      rw [h2]
      simp
    · exact ⟨acc, rfl, [], by simp⟩

theorem workflowBody_pure (jp : List Char → Option Bool) (maxIter : Nat)
    (p : PureEnv) :
    ∃ stages iters finalImpl,
      workflowBody jp maxIter p.toEnv = .ok (stages, iters, finalImpl) ∧
        stages ≠ [] := by
  obtain ⟨acc', hloop, ext, hext⟩ := refineLoopF_pure jp p maxIter maxIter
    { stages := [_architect_stage p.arch, _coder_stage p.impl,
        _reviewer_stage (p.review 0)]
      iterations := 0
      implementation := (_coder_stage p.impl).output
      lastReview := p.review 0 }
  rw [workflowBody_toEnv, hloop]
  show ∃ stages iters finalImpl,
    (if p.docBudget > 10 then
      Except.ok (acc'.stages ++ [_documenter_stage p.doc], acc'.iterations,
        acc'.implementation)
    else
      Except.ok (acc'.stages, acc'.iterations, acc'.implementation)) =
        Except.ok (stages, iters, finalImpl) ∧ stages ≠ []
  by_cases hd : p.docBudget > 10
  · rw [if_pos hd]
    refine ⟨acc'.stages ++ [_documenter_stage p.doc], acc'.iterations,
      acc'.implementation, rfl, ?_⟩
    rw [hext]
    simp
  · rw [if_neg hd]
    refine ⟨acc'.stages, acc'.iterations, acc'.implementation, rfl, ?_⟩
    rw [hext]
    simp

/-- Architecture output used by the concrete scenarios (long enough and
keyword-bearing, so the architecture stage reports success). -/
def c2arch : List Char :=
  ("architecture design overview: the system is built from layered components with clear structure, interfaces and data flow").data

/-- A 30-character implementation output with no fenced block. -/
def c2impl : List Char := ("def add(a, b): return a + b#ok").data

/-- Concrete environment for the claim C2 scenario: every stage
succeeds, the review reports no issues, and the final implementation is
30 characters long. -/
def c2env : PureEnv :=
  { arch := c2arch
    impl := c2impl
    review := fun _ => ("all clear").data
    refine := fun _ => ("unused").data
    doc := ("usage documentation").data
    loopBudget := fun _ => 100
    docBudget := 100 }

set_option maxRecDepth 40000 in
/-- Claim C2: for every completed (non-aborted) run, the run-level
success flag equals `all(stage.success) AND len(final_output.strip()) > 50`
(the source also guards on a non-empty stage list, which is always true
for a completed run); in particular with every stage succeeding and a
30-character final output, the run does not succeed. -/
theorem claim_C2 :
    (∀ (jp : List Char → Option Bool) (maxIter : Nat) (task : List Char)
      (p : PureEnv),
      (execute_workflow jp maxIter task p.toEnv).success =
        ((execute_workflow jp maxIter task p.toEnv).stages.all
          (fun st => st.success) &&
         decide ((pyStrip (execute_workflow jp maxIter task
           p.toEnv).final_output).length > 50))) ∧
    (∀ jp : List Char → Option Bool,
      (execute_workflow jp 3 (("task").data) c2env.toEnv).stages.all
        (fun st => st.success) = true ∧
      (pyStrip (execute_workflow jp 3 (("task").data)
        c2env.toEnv).final_output).length = 30 ∧
      (execute_workflow jp 3 (("task").data) c2env.toEnv).success = false) := by
  constructor
  · intro jp maxIter task p
    obtain ⟨stages, iters, finalImpl, hbody, hne⟩ := workflowBody_pure jp maxIter p
    simp only [execute_workflow, hbody]
    have hlen : decide (stages.length > 0) = true := by
      simp [List.length_pos, hne]
    rw [hlen]
    simp
  · intro jp
    exact ⟨rfl, rfl, rfl⟩

/-- Environment for the claim C6 witness: the very first stage call
raises an exception that escapes the stage wrapper. -/
def c6env : WorkflowEnv :=
  { arch := .error ()
    impl := .ok []
    review := fun _ => .ok []
    refine := fun _ => .ok []
    doc := .ok []
    loopBudget := fun _ => 0
    docBudget := 0 }

/-- Claim C6: `execute_workflow` is a total function (it always returns
a `WorkflowResult` and never propagates an exception), and whenever an
exception escapes a stage wrapper (the body aborts with the stage
results accumulated so far), the returned record keeps exactly those
stage results, has an empty final output and `success = false`. -/
theorem claim_C6 (jp : List Char → Option Bool) (maxIter : Nat)
    (task : List Char) (env : WorkflowEnv) (st : List StageResult)
    (h : workflowBody jp maxIter env = .error st) :
    execute_workflow jp maxIter task env =
      { original_request := task
        workflow_name := ("feature_development").data
        stages := st
        final_output := []
        iterations := 0
        success := false } := by
  simp only [execute_workflow, h]

/-- Witness for claim C6: an environment whose architecture stage call
raises an escaping exception. -/
theorem claim_C6_witness :
    workflowBody (fun _ => none) 3 c6env = .error [] ∧
    execute_workflow (fun _ => none) 3 [] c6env =
      { original_request := []
        workflow_name := ("feature_development").data
        stages := []
        final_output := []
        iterations := 0
        success := false } :=
  ⟨rfl, claim_C6 (fun _ => none) 3 [] c6env [] rfl⟩

/-- Concrete environment for the claim C8 scenario: the reviews report
issues, issues, no issues (through the keyword fallback, since the
review outputs carry no JSON braces), and the budget readings are ample
at every decision point. -/
def c8env : PureEnv :=
  { arch := c2arch
    impl := c2impl
    review := fun k => if k = 0 then ("critical problem detected").data
      else if k = 1 then ("one issue remains").data
      else ("lgtm no problems").data
    refine := fun _ => ("def mul(a, b): return a * b").data
    doc := ("usage documentation").data
    loopBudget := fun _ => 100
    docBudget := 100 }

set_option maxRecDepth 40000 in
/-- Claim C8: with reviews reporting issues_found = true, true, false,
`max_iterations = 3` and ample budget at every decision point, exactly
two refine stages execute and the run records exactly the eight stage
results design, build, review, refine, review, refine, review, document
(source stage names: architecture, implementation, review, refinement,
documentation), in execution order. -/
theorem claim_C8 (jp : List Char → Option Bool) :
    (execute_workflow jp 3 (("task").data) c8env.toEnv).stages.map
      (fun st => st.stage) =
      [("architecture").data, ("implementation").data, ("review").data,
       ("refinement").data, ("review").data, ("refinement").data,
       ("review").data, ("documentation").data] ∧
    (execute_workflow jp 3 (("task").data) c8env.toEnv).iterations = 2 ∧
    cntStage (execute_workflow jp 3 (("task").data) c8env.toEnv).stages
      (("refinement").data) = 2 :=
  ⟨rfl, rfl, rfl⟩

/-- The stage name of the refinement stage. -/
def rfnName : List Char := ("refinement").data

/-- The stage name of the review stage. -/
def rvwName : List Char := ("review").data

theorem refineLoopF_bounds (jp : List Char → Option Bool) (env : WorkflowEnv)
    (maxIter : Nat) : ∀ (fuel : Nat) (acc : LoopAcc),
    (∀ acc', refineLoopF jp env maxIter fuel acc = .ok acc' →
      acc'.iterations ≤ max acc.iterations maxIter ∧
      cntStage acc'.stages rfnName ≤
        cntStage acc.stages rfnName + (maxIter - acc.iterations) ∧
      cntStage acc'.stages rvwName ≤
        cntStage acc.stages rvwName + (maxIter - acc.iterations)) ∧
    (∀ st, refineLoopF jp env maxIter fuel acc = .error st →
      cntStage st rfnName ≤
        cntStage acc.stages rfnName + (maxIter - acc.iterations) ∧
      cntStage st rvwName ≤
        cntStage acc.stages rvwName + (maxIter - acc.iterations)) := by
  intro fuel
  induction fuel with
  | zero =>
    intro acc
    constructor
    · intro acc' h
      rw [refineLoopF] at h
      injection h with h
      subst h
      exact ⟨le_max_left _ _, Nat.le_add_right _ _, Nat.le_add_right _ _⟩
    · intro st h
      rw [refineLoopF] at h
      exact absurd h (by simp)
  | succ n ih =>
    intro acc
    have step : ∀ refOut revOut,
        cntStage (acc.stages ++ [_coder_refine_stage refOut,
          _reviewer_stage revOut]) rfnName =
          cntStage acc.stages rfnName + 1 ∧
        cntStage (acc.stages ++ [_coder_refine_stage refOut,
          _reviewer_stage revOut]) rvwName =
          cntStage acc.stages rvwName + 1 := by
      intro refOut revOut
      rw [cntStage_append, cntStage_append]
      exact ⟨rfl, rfl⟩
    constructor
    · intro acc' h
      rw [refineLoopF] at h
      split at h
      · rename_i hguard
        have hlt : acc.iterations < maxIter := by
          simp only [Bool.and_eq_true, decide_eq_true_eq] at hguard
          exact hguard.1.2
        split at h
        · exact absurd h (by simp)
        · rename_i refOut href
          split at h
          · exact absurd h (by simp)
          · rename_i revOut hrev
            obtain ⟨hit, hrfn, hrvw⟩ := (ih _).1 acc' h
            dsimp only at hit hrfn hrvw
            refine ⟨?_, ?_, ?_⟩
            · have hm1 : max (acc.iterations + 1) maxIter = maxIter :=
                max_eq_right (by omega)
              have hm2 : max acc.iterations maxIter = maxIter :=
                max_eq_right (by omega)
              rw [hm1] at hit
              rw [hm2]
              exact hit
            · rw [(step refOut revOut).1] at hrfn
              omega
            · rw [(step refOut revOut).2] at hrvw
              omega
      · injection h with h
        subst h
        exact ⟨le_max_left _ _, Nat.le_add_right _ _, Nat.le_add_right _ _⟩
    · intro st h
      rw [refineLoopF] at h
      split at h
      · rename_i hguard
        have hlt : acc.iterations < maxIter := by
          simp only [Bool.and_eq_true, decide_eq_true_eq] at hguard
          exact hguard.1.2
        split at h
        · injection h with h
          subst h
          exact ⟨Nat.le_add_right _ _, Nat.le_add_right _ _⟩
        · rename_i refOut href
          split at h
          · injection h with h
            subst h
            rw [cntStage_append, cntStage_append]
            have h1 : cntStage [_coder_refine_stage refOut] rfnName = 1 := rfl
            have h2 : cntStage [_coder_refine_stage refOut] rvwName = 0 := rfl
            rw [h1, h2]
            omega
          · rename_i revOut hrev
            obtain ⟨hrfn, hrvw⟩ := (ih _).2 st h
            dsimp only at hrfn hrvw
            constructor
            · rw [(step refOut revOut).1] at hrfn
              omega
            · rw [(step refOut revOut).2] at hrvw
              omega
      · exact absurd h (by simp)

theorem workflowBody_bounds (jp : List Char → Option Bool) (maxIter : Nat)
    (env : WorkflowEnv) :
    (∀ stages iters finalImpl,
      workflowBody jp maxIter env = .ok (stages, iters, finalImpl) →
      cntStage stages rfnName ≤ maxIter ∧
      cntStage stages rvwName ≤ maxIter + 1 ∧ iters ≤ maxIter) ∧
    (∀ st, workflowBody jp maxIter env = .error st →
      cntStage st rfnName ≤ maxIter ∧ cntStage st rvwName ≤ maxIter + 1) := by
  constructor
  · intro stages iters finalImpl heq
    rw [workflowBody] at heq
    split at heq
    · exact absurd heq (by simp)
    · rename_i archOut harch
      split at heq
      · exact absurd heq (by simp)
      · rename_i implOut himpl
        split at heq
        · exact absurd heq (by simp)
        · rename_i revOut hrev
          split at heq
          · exact absurd heq (by simp)
          · rename_i acc hloop
            obtain ⟨hit, hrfn, hrvw⟩ := (refineLoopF_bounds jp env maxIter
              maxIter _).1 acc hloop
            dsimp only at hit hrfn hrvw
            have hcnt0 : cntStage [_architect_stage archOut,
                _coder_stage implOut, _reviewer_stage revOut] rfnName = 0 := rfl
            have hcnt1 : cntStage [_architect_stage archOut,
                _coder_stage implOut, _reviewer_stage revOut] rvwName = 1 := rfl
            rw [hcnt0] at hrfn
            rw [hcnt1] at hrvw
            split at heq
            · split at heq
              · exact absurd heq (by simp)
              · rename_i docOut hdoc
                injection heq with heq
                injection heq with h1 heq
                injection heq with h2 h3
                subst h1; subst h2
                have hd0 : cntStage [_documenter_stage docOut] rfnName = 0 := rfl
                have hd1 : cntStage [_documenter_stage docOut] rvwName = 0 := rfl
                rw [cntStage_append, hd0, cntStage_append, hd1]
                refine ⟨by omega, by omega, ?_⟩
                simp only [max_def] at hit
                split at hit <;> omega
            · injection heq with heq
              injection heq with h1 heq
              injection heq with h2 h3
              subst h1; subst h2
              refine ⟨by omega, by omega, ?_⟩
              simp only [max_def] at hit
              split at hit <;> omega
  · intro st heq
    rw [workflowBody] at heq
    split at heq
    · injection heq with heq
      subst heq
      exact ⟨Nat.zero_le _, Nat.zero_le _⟩
    · rename_i archOut harch
      split at heq
      · injection heq with heq
        subst heq
        exact ⟨Nat.zero_le _, Nat.zero_le _⟩
      · rename_i implOut himpl
        split at heq
        · injection heq with heq
          subst heq
          exact ⟨Nat.zero_le _, Nat.zero_le _⟩
        · rename_i revOut hrev
          split at heq
          · rename_i stl hloop
            injection heq with heq
            subst heq
            obtain ⟨hrfn, hrvw⟩ := (refineLoopF_bounds jp env maxIter
              maxIter _).2 _ hloop
            dsimp only at hrfn hrvw
            have hcnt0 : cntStage [_architect_stage archOut,
                _coder_stage implOut, _reviewer_stage revOut] rfnName = 0 := rfl
            have hcnt1 : cntStage [_architect_stage archOut,
                _coder_stage implOut, _reviewer_stage revOut] rvwName = 1 := rfl
            rw [hcnt0] at hrfn
            rw [hcnt1] at hrvw
            exact ⟨by omega, by omega⟩
          · rename_i acc hloop
            obtain ⟨hit, hrfn, hrvw⟩ := (refineLoopF_bounds jp env maxIter
              maxIter _).1 acc hloop
            dsimp only at hit hrfn hrvw
            have hcnt0 : cntStage [_architect_stage archOut,
                _coder_stage implOut, _reviewer_stage revOut] rfnName = 0 := rfl
            have hcnt1 : cntStage [_architect_stage archOut,
                _coder_stage implOut, _reviewer_stage revOut] rvwName = 1 := rfl
            rw [hcnt0] at hrfn
            rw [hcnt1] at hrvw
            split at heq
            · split at heq
              · injection heq with heq
                subst heq
                exact ⟨by omega, by omega⟩
              · exact absurd heq (by simp)
            · exact absurd heq (by simp)

/-- Claim C3: for every environment (hence every sequence of review
outputs, including an adversarial review that always reports issues),
the run contains at most `max_iterations` refinement stage results,
at most `max_iterations + 1` review stage results, and its recorded
iteration count never exceeds `max_iterations`. -/
theorem claim_C3 (jp : List Char → Option Bool) (maxIter : Nat)
    (task : List Char) (env : WorkflowEnv) :
    cntStage (execute_workflow jp maxIter task env).stages (("refinement").data) ≤
      maxIter ∧
    cntStage (execute_workflow jp maxIter task env).stages (("review").data) ≤
      maxIter + 1 ∧
    (execute_workflow jp maxIter task env).iterations ≤ maxIter := by
  show cntStage (execute_workflow jp maxIter task env).stages rfnName ≤ maxIter ∧
    cntStage (execute_workflow jp maxIter task env).stages rvwName ≤ maxIter + 1 ∧
    (execute_workflow jp maxIter task env).iterations ≤ maxIter
  cases hbody : workflowBody jp maxIter env with
  | error st =>
    obtain ⟨h1, h2⟩ := (workflowBody_bounds jp maxIter env).2 st hbody
    simp only [execute_workflow, hbody]
    exact ⟨h1, h2, Nat.zero_le _⟩
  | ok res =>
    obtain ⟨stages, iters, finalImpl⟩ := res
    obtain ⟨h1, h2, h3⟩ := (workflowBody_bounds jp maxIter env).1 stages iters
      finalImpl hbody
    simp only [execute_workflow, hbody]
    exact ⟨h1, h2, h3⟩

/-! ### Middleware hooks (`base_middleware.py` and the hook blocks of
`execute_workflow`)

A middleware is modelled by its `enabled` flag, its subscribed hook
list (`get_hooks`) and the evaluation carried by the result of its
`execute` call at the hook under consideration (`mw_result.get("evaluation")`,
a model input since `execute` runs external evaluators).  The run
context is an association list with Python-dict update semantics. -/

/-- The `MiddlewareHook` enumeration. -/
inductive MiddlewareHook where
  | pre_architect | post_architect | pre_coder | post_coder
  | pre_reviewer | post_reviewer | pre_refiner | post_refiner
  | pre_documenter | post_documenter
deriving DecidableEq

/-- A value stored in the run context: stage output strings and
evaluation objects. -/
inductive CtxVal where
  | str : List Char → CtxVal
  | eval : AggregatedEvaluationResult → CtxVal
deriving DecidableEq

/-- The run context (`context` dict of `execute_workflow`). -/
abbrev Ctx : Type := List (List Char × CtxVal)

/-- Python dict assignment `ctx[k] = v`: replace the value in place if
the key exists, else append the new binding. -/
def ctxSet : Ctx → List Char → CtxVal → Ctx
  | [], k, v => [(k, v)]
  | (k', v') :: rest, k, v =>
    if k' = k then (k, v) :: rest else (k', v') :: ctxSet rest k v

/-- Python dict lookup `ctx.get(k)`. -/
def ctxGet : Ctx → List Char → Option CtxVal
  | [], _ => none
  | (k', v') :: rest, k => if k' = k then some v' else ctxGet rest k

/-- One middleware as seen by the hook block: enabled flag, subscribed
hooks, and the evaluation its `execute` result carries at this hook. -/
structure MwModel where
  enabled : Bool
  hooks : List MiddlewareHook
  evaluation : Option AggregatedEvaluationResult

/-- `BaseMiddleware.should_execute`: enabled and subscribed to the
hook. -/
def should_execute (m : MwModel) (h : MiddlewareHook) : Bool :=
  m.enabled && m.hooks.any (fun x => decide (x = h))

/-- The middleware block run by `execute_workflow` at the POST_REFINER
and POST_DOCUMENTER hooks: for each middleware that should execute, if
its result carries an evaluation, assign it to the single hook-specific
context key (`refiner_evaluation` / `documenter_evaluation`, passed as
`key`); the rest of the result is not stored. -/
def run_eval_hook (hook : MiddlewareHook) (key : List Char) :
    List MwModel → Ctx → Ctx
  | [], ctx => ctx
  | m :: rest, ctx =>
    run_eval_hook hook key rest
      (if should_execute m hook then
        match m.evaluation with
        | some ev => ctxSet ctx key (.eval ev)
        | none => ctx
      else ctx)

/-- The evaluation of the last middleware in the list that should
execute at the hook and carries one. -/
def lastEval (hook : MiddlewareHook) : List MwModel → Option AggregatedEvaluationResult
  | [] => none
  | m :: rest =>
    match lastEval hook rest with
    | some e => some e
    | none => if should_execute m hook then m.evaluation else none

theorem ctxGet_ctxSet_self (ctx : Ctx) (k : List Char) (v : CtxVal) :
    ctxGet (ctxSet ctx k v) k = some v := by
  induction ctx with
  | nil => simp [ctxSet, ctxGet]
  | cons p rest ih =>
    obtain ⟨k', v'⟩ := p
    rw [ctxSet]
    by_cases hk : k' = k
    · rw [if_pos hk, ctxGet, if_pos rfl]
    · rw [if_neg hk, ctxGet, if_neg hk]
      exact ih

theorem ctxGet_ctxSet_ne (ctx : Ctx) (k k' : List Char) (v : CtxVal)
    (h : ¬ k' = k) : ctxGet (ctxSet ctx k v) k' = ctxGet ctx k' := by
  induction ctx with
  | nil =>
    simp only [ctxSet, ctxGet]
    rw [if_neg (fun hx => h hx.symm)]
  | cons p rest ih =>
    obtain ⟨k0, v0⟩ := p
    rw [ctxSet]
    by_cases hk : k0 = k
    · subst hk
      rw [if_pos rfl]
      simp only [ctxGet]
      rw [if_neg (fun hx => h hx.symm), if_neg (fun hx => h hx.symm)]
    · rw [if_neg hk]
      simp only [ctxGet]
      by_cases h0 : k0 = k'
      · rw [if_pos h0, if_pos h0]
      · rw [if_neg h0, if_neg h0]
        exact ih

/-- The context key written by the POST_REFINER hook block. -/
def refinerEvalKey : List Char := ("refiner_evaluation").data

/-- A sample evaluation result. -/
def evalA : AggregatedEvaluationResult :=
  { overall_score := 1/2, passed := false, security_score := 0,
    static_analysis_score := 0, complexity_score := 0, llm_judge_score := 0,
    evaluators_run := 4, evaluators_failed := 0 }

/-- A second, distinct sample evaluation result. -/
def evalB : AggregatedEvaluationResult :=
  { overall_score := 3/4, passed := true, security_score := 1,
    static_analysis_score := 1, complexity_score := 1, llm_judge_score := 1,
    evaluators_run := 4, evaluators_failed := 0 }

/-- An enabled middleware subscribed to POST_REFINER reporting `evalA`. -/
def mwA : MwModel :=
  { enabled := true, hooks := [.post_refiner, .post_documenter],
    evaluation := some evalA }

/-- An enabled middleware subscribed to POST_REFINER reporting `evalB`. -/
def mwB : MwModel :=
  { enabled := true, hooks := [.post_refiner, .post_documenter],
    evaluation := some evalB }

/-- An enabled middleware subscribed to POST_REFINER whose result
carries no evaluation. -/
def mwNoEval : MwModel :=
  { enabled := true, hooks := [.post_refiner, .post_documenter],
    evaluation := none }

/-- A sample initial run context. -/
def ctx0 : Ctx := [(("original_request").data, .str (("task").data))]

/-- Counterexample to claim C9: at the POST_REFINER hook, a second
middleware with an evaluation overwrites the context entry merged by
the first middleware at the same hook (both results are stored under
the single key `refiner_evaluation`), and a middleware result without
an evaluation is silently dropped (the context is unchanged, so its
`passed`/`metadata` fields are never stored). -/
theorem claim_C9_counterexample :
    ctxGet (run_eval_hook .post_refiner refinerEvalKey [mwA] ctx0)
      refinerEvalKey = some (.eval evalA) ∧
    ctxGet (run_eval_hook .post_refiner refinerEvalKey [mwA, mwB] ctx0)
      refinerEvalKey = some (.eval evalB) ∧
    evalA ≠ evalB ∧
    run_eval_hook .post_refiner refinerEvalKey [mwNoEval] ctx0 = ctx0 :=
  ⟨rfl, rfl, fun h => by
    have hp := congrArg AggregatedEvaluationResult.passed h
    simp [evalA, evalB] at hp, rfl⟩

/-- Claim C9, amended: at each hook point the evaluation (when present)
of each subscribed enabled middleware is assigned to the single
hook-specific context key, so the key ends up holding the evaluation of
the last such middleware — a later middleware at the same hook
overwrites an earlier one, and results without an evaluation (and the
other result fields) are dropped; entries under every other context key
are left unchanged. -/
theorem claim_C9 (hook : MiddlewareHook) (key : List Char)
    (mws : List MwModel) (ctx : Ctx) :
    (∀ k, ¬ k = key →
      ctxGet (run_eval_hook hook key mws ctx) k = ctxGet ctx k) ∧
    ctxGet (run_eval_hook hook key mws ctx) key =
      (match lastEval hook mws with
      | some e => some (.eval e)
      | none => ctxGet ctx key) := by
  induction mws generalizing ctx with
  | nil => exact ⟨fun k hk => rfl, rfl⟩
  | cons m rest ih =>
    rw [run_eval_hook]
    constructor
    · intro k hk
      rw [(ih _).1 k hk]
      by_cases hs : should_execute m hook = true
      · rw [if_pos hs]
        cases hev : m.evaluation with
        | none => rfl
        | some ev => exact ctxGet_ctxSet_ne ctx key k (.eval ev) hk
      · rw [if_neg hs]
    · rw [(ih _).2, lastEval]
      cases hlast : lastEval hook rest with
      | some e => rfl
      | none =>
        by_cases hs : should_execute m hook = true
        · rw [if_pos hs, if_pos hs]
          cases hev : m.evaluation with
          | none => rfl
          | some ev => exact ctxGet_ctxSet_self ctx key (.eval ev)
        · rw [if_neg hs, if_neg hs]

/-- Witness for claim C9: one middleware at POST_REFINER, looking up
the untouched `original_request` key and the hook key. -/
theorem claim_C9_witness :
    ctxGet (run_eval_hook MiddlewareHook.post_refiner refinerEvalKey [mwA] ctx0)
      (("original_request").data) = ctxGet ctx0 (("original_request").data) ∧
    ctxGet (run_eval_hook MiddlewareHook.post_refiner refinerEvalKey [mwA] ctx0)
      refinerEvalKey =
      (match lastEval MiddlewareHook.post_refiner [mwA] with
      | some e => some (.eval e)
      | none => ctxGet ctx0 refinerEvalKey) :=
  ⟨(claim_C9 MiddlewareHook.post_refiner refinerEvalKey [mwA] ctx0).1
      (("original_request").data) (by decide),
    (claim_C9 MiddlewareHook.post_refiner refinerEvalKey [mwA] ctx0).2⟩

end AnomalyHunter
